import Mathlib

set_option maxRecDepth 40000

/-!
Verification of the switcheroo catalog core: a shallow embedding of the
filename classifier and entry builder (`src/scanner.rs`), the metadata
store lookups and `sync` control flow (`src/metadata.rs`), the shop
protocol encoder (`src/tinfoil.rs`), the reconciliation engine's catalog
operations (`src/tasks.rs`), and the shop listing handler
(`src/handlers/tinfoil.rs`).

Strings manipulated character-by-character by the Rust code are embedded
as `List Char`; filesystem paths are embedded as lists of components
(`List String`); filesystem and network effects are embedded as explicit
oracle parameters (a record of functions for the filesystem, an outcome
datatype for HTTP fetches).  Machine integers are embedded as `Nat` with
explicit bounds where the Rust code can overflow or truncate.
-/

/-! Section: character and list helpers (faithful to the Rust std behaviours used) -/

/-- Rust `char::is_ascii_hexdigit`. -/
def is_ascii_hexdigit (c : Char) : Bool :=
  c.isDigit || ( 'a' ≤ c && c ≤ 'f') || ( 'A' ≤ c && c ≤ 'F')

/-- Rust `str::to_uppercase`, restricted to the per-character (ASCII) case used here. -/
def charsUpper (l : List Char) : List Char := l.map Char.toUpper

/-- Rust `str::to_lowercase`, restricted to the per-character (ASCII) case used here. -/
def charsLower (l : List Char) : List Char := l.map Char.toLower

/-- Rust `str::trim`: strip whitespace from both ends. -/
def trimL (l : List Char) : List Char :=
  ((l.dropWhile Char.isWhitespace).reverse.dropWhile Char.isWhitespace).reverse

/-- Rust `str::find(char)`: index of the first occurrence of `t`. -/
def find_char (t : Char) : List Char → Option Nat
  | [] => none
  | c :: rest => if c = t then some 0 else (find_char t rest).map (fun i => i + 1)

/-- Rust `str::split(char)`: `n` separators yield `n + 1` pieces. -/
def split_on (sep : Char) : List Char → List (List Char)
  | [] => [[]]
  | c :: rest =>
    if c = sep then [] :: split_on sep rest
    else
      match split_on sep rest with
      | [] => [[c]]
      | h :: t => (c :: h) :: t

/-- Index of the last `.` in a file name, if any. -/
def last_dot_idx (l : List Char) : Option Nat :=
  match find_char '.' l.reverse with
  | none => none
  | some j => some (l.length - 1 - j)

/-- Rust `Path::file_stem` on a bare file name: the part before the last `.`,
the whole name when there is no dot or when the only dot leads a hidden file. -/
def file_stem (l : List Char) : List Char :=
  match last_dot_idx l with
  | none => l
  | some 0 => l
  | some i => l.take i

/-! Section: filename classifier, the function parse_filename of src/scanner.rs -/

def base_cat : List Char := [ 'B', 'a', 's', 'e']

def update_cat : List Char := [ 'U', 'p', 'd', 'a', 't', 'e']

def dlc_cat : List Char := [ 'D', 'L', 'C']

/-- One iteration of the bracketed-segment loop in `parse_filename`:
`part` is the text following a `[`; segments with no closing `]` are skipped. -/
def parse_step (st : Option (List Char) × Option (List Char) × List Char)
    (part : List Char) : Option (List Char) × Option (List Char) × List Char :=
  match find_char ']' part with
  | none => st
  | some e =>
    let content := part.take e
    if content.length = 16 ∧ content.all is_ascii_hexdigit then
      (some (charsUpper content), st.2.1, st.2.2)
    else if content.head? = some 'v' ∧ (content.drop 1).all Char.isDigit then
      (st.1, some content, if content ≠ [ 'v', '0'] then update_cat else st.2.2)
    else if content = [ 'U', 'P', 'D'] then
      (st.1, st.2.1, update_cat)
    else if content = [ 'D', 'L', 'C'] then
      (st.1, st.2.1, dlc_cat)
    else st

/-- The function `parse_filename` (src/scanner.rs): strip the extension, split the stem on
`[`, take the trimmed leading piece as the display name, and fold the
remaining bracketed segments through the heuristics.  Returns
`(name, title_id, version, category)`. -/
def parse_filename (filename : List Char) :
    List Char × Option (List Char) × Option (List Char) × List Char :=
  let clean_name := file_stem filename
  match split_on '[' clean_name with
  | [] => (clean_name, none, none, base_cat)
  | p0 :: rest =>
    let name_parts : List (List Char) := [trimL p0]
    let st := rest.foldl parse_step (none, none, base_cat)
    let final_name := if name_parts = [] then clean_name else List.intercalate [ ' '] name_parts
    (final_name, st.1, st.2.1, st.2.2)

/-! Section: metadata store (src/metadata.rs) -/

/-- Rust `str::parse::<u64>`: optional leading `+`, at least one decimal digit,
value must fit in 64 bits. -/
def parse_u64 (l : List Char) : Option Nat :=
  let digits := match l with
    | '+' :: rest => rest
    | _ => l
  if digits ≠ [] ∧ digits.all Char.isDigit then
    let v := digits.foldl (fun acc c => acc * 10 + (c.toNat - 48)) 0
    if v < 18446744073709551616 then some v else none
  else none

/-- Rust `Iterator::max` over naturals. -/
def iter_max : List Nat → Option Nat
  | [] => none
  | x :: xs =>
    match iter_max xs with
    | none => some x
    | some m => some (max x m)

/-- Rust `u64` `Display` (decimal, no leading zeros), as a character list. -/
def natToChars (n : Nat) : List Char := (Nat.repr n).toList

structure TitleInfo where
  id : List Char
  name : Option (List Char)
  icon_url : Option (List Char)
  banner_url : Option (List Char)
  category : Option (List (List Char))
  description : Option (List Char)
  publisher : Option (List Char)
deriving DecidableEq

/-- The two in-memory maps of `MetadataProvider`, embedded as association
lists (the `HashMap`s of the source keyed by strings). -/
structure MetadataProvider where
  titles : List (List Char × TitleInfo)
  versions : List (List Char × List (List Char × List Char))
deriving DecidableEq

/-- Method `MetadataProvider::get_title_info`: look the identifier up uppercased. -/
def get_title_info (p : MetadataProvider) (title_id : List Char) : Option TitleInfo :=
  List.lookup (charsUpper title_id) p.titles

/-- Method `MetadataProvider::get_latest_version`: look the identifier up lowercased,
keep the keys that parse as `u64`, take the maximum, restringify. -/
def get_latest_version (p : MetadataProvider) (title_id : List Char) : Option (List Char) :=
  match List.lookup (charsLower title_id) p.versions with
  | none => none
  | some versions =>
    (iter_max ((versions.map Prod.fst).filterMap parse_u64)).map natToChars

/-! Section: control flow of MetadataProvider sync (src/metadata.rs)

The network and the local filesystem are oracles.  A fetch either fails at
request time (`send_err`), returns a non-success status, or returns a
success status with a stream of body chunks; each chunk either fails to be
read off the network (`net_err`, the `item?` in the source) or arrives and
is written with the given outcome (`chunk write_ok`, the `write_all?`). -/

inductive ChunkEvt where
  | net_err : ChunkEvt
  | chunk (write_ok : Bool) : ChunkEvt
deriving DecidableEq

inductive FetchOutcome where
  | send_err : FetchOutcome
  | resp (status_ok : Bool) (chunks : List ChunkEvt) : FetchOutcome
deriving DecidableEq

inductive SyncError where
  | io_err : SyncError
  | net_err : SyncError
deriving DecidableEq

/-- The body-copy loop `while let Some(item) = stream.next().await { file.write_all(&item?)?; }`. -/
def drain_to_file : List ChunkEvt → Except SyncError Unit
  | [] => Except.ok ()
  | ChunkEvt.net_err :: _ => Except.error SyncError.net_err
  | ChunkEvt.chunk false :: _ => Except.error SyncError.io_err
  | ChunkEvt.chunk true :: rest => drain_to_file rest

/-- One `match client.get(..).send().await { .. }` arm of `sync`: request
errors and non-success statuses are logged and swallowed; on success the
destination file is created (`File::create?`) and the body drained. -/
def fetch_to_file (create_ok : Bool) (f : FetchOutcome) : Except SyncError Unit :=
  match f with
  | FetchOutcome.send_err => Except.ok ()
  | FetchOutcome.resp false _ => Except.ok ()
  | FetchOutcome.resp true chunks =>
    if create_ok then drain_to_file chunks else Except.error SyncError.io_err

/-- The `for url in urls` loop of `sync`: try each title-document URL until
one succeeds (`break`), swallowing request errors and bad statuses. -/
def sync_titles : List (Bool × FetchOutcome) → Except SyncError Unit
  | [] => Except.ok ()
  | (create_ok, f) :: rest =>
    match f with
    | FetchOutcome.send_err => sync_titles rest
    | FetchOutcome.resp false _ => sync_titles rest
    | FetchOutcome.resp true chunks =>
      if create_ok then drain_to_file chunks else Except.error SyncError.io_err

/-- Method `MetadataProvider::sync`: create the `titledb` directory if missing,
fetch `versions.json`, then try the title-document URLs; the final
`load_local_data` is infallible.  `titles_attempts` lists the
`(File::create outcome, fetch outcome)` pairs for the title URLs in order. -/
def sync (dir_exists create_dir_ok versions_create_ok : Bool)
    (versions_fetch : FetchOutcome)
    (titles_attempts : List (Bool × FetchOutcome)) : Except SyncError Unit :=
  if dir_exists = false ∧ create_dir_ok = false then Except.error SyncError.io_err
  else
    match fetch_to_file versions_create_ok versions_fetch with
    | Except.error e => Except.error e
    | Except.ok _ =>
      match sync_titles titles_attempts with
      | Except.error e => Except.error e
      | Except.ok _ => Except.ok ()

/-- Returns `true` when the chunk arrived off the network (its write may still fail). -/
def chunk_has_data : ChunkEvt → Bool
  | ChunkEvt.net_err => false
  | ChunkEvt.chunk _ => true

/-- Returns `true` when the fetch outcome contains no body-read network failure. -/
def fetch_no_net_body : FetchOutcome → Bool
  | FetchOutcome.resp true chunks => chunks.all chunk_has_data
  | _ => true

/-! Section: paths, the filesystem oracle and the entry builder (src/scanner.rs) -/

/-- A filesystem path as a list of components. -/
abbrev PathC := List String

/-- The filesystem facts `process_entry` consults: `Path::is_file`,
`fs::metadata(..).len()` (`none` on error), and `Path::exists`. -/
structure FS where
  is_file : PathC → Bool
  metadata_len : PathC → Option Nat
  fs_exists : PathC → Bool

/-- Rust `Path::file_name`: the last component. -/
def path_file_name (p : PathC) : Option String := p.getLast?

/-- Rust `Path::extension`: the part of the file name after the last `.`,
absent for dotless or leading-dot-only names. -/
def path_extension (p : PathC) : Option String :=
  match path_file_name p with
  | none => none
  | some name =>
    match last_dot_idx name.toList with
    | none => none
    | some 0 => none
    | some i => some (String.mk (name.toList.drop (i + 1)))

/-- Rust `Path::file_stem` of the full path (empty for pathless input, the
`unwrap_or("")` in the source). -/
def path_file_stem (p : PathC) : List Char :=
  match path_file_name p with
  | none => []
  | some name => file_stem name.toList

/-- Component-wise prefix removal; `none` when `root` is not a prefix. -/
def drop_root : PathC → PathC → Option PathC
  | [], p => some p
  | _ :: _, [] => none
  | r :: rs, q :: qs => if r = q then drop_root rs qs else none

/-- Rust `path.strip_prefix(root).unwrap_or(path)`. -/
def strip_root (root p : PathC) : PathC := (drop_root root p).getD p

/-- Rust `Path::with_file_name`: replace the last component. -/
def with_file_name (p : PathC) (name : String) : PathC := p.dropLast ++ [name]

/-- Rust `Path::to_string_lossy` over components. -/
def join_path (p : PathC) : String := String.intercalate "/" p

structure Game where
  name : List Char
  path : PathC
  relative_path : String
  size : Nat
  format : String
  title_id : Option (List Char)
  version : Option (List Char)
  latest_version : Option (List Char)
  category : List Char
  publisher : Option (List Char)
  image_url : Option String
deriving DecidableEq

def valid_extensions : List String := ["nsp", "nsz", "xci", "xcz"]

def image_exts : List String := ["jpg", "png", "jpeg", "webp"]

/-- The function `process_entry` (src/scanner.rs): reject non-files and unrecognized
extensions, classify the file name, overlay metadata, resolve the image
location (cache first, then sibling file), and build the `Game` record. -/
def process_entry (fs : FS) (path root_dir data_dir : PathC)
    (metadata : Option MetadataProvider) : Option Game :=
  if fs.is_file path = false then none
  else
    match path_extension path with
    | none => none
    | some ext =>
      if String.mk (charsLower ext.toList) ∈ valid_extensions then
        let filename : String := (path_file_name path).getD "Unknown"
        let size := (fs.metadata_len path).getD 0
        let relative_path := join_path (strip_root root_dir path)
        let parsed := parse_filename filename.toList
        let title_id := parsed.2.1
        let enriched :=
          match metadata, title_id with
          | some provider, some tid =>
            let info? := get_title_info provider tid
            let name1 := match info? with
              | some info => info.name.getD parsed.1
              | none => parsed.1
            let publ := match info? with
              | some info => info.publisher
              | none => none
            (name1, publ, get_latest_version provider tid)
          | _, _ => (parsed.1, none, none)
        let image_cache :=
          match title_id with
          | some tid =>
            image_exts.findSome? (fun img_ext =>
              let img_path := data_dir ++ ["images", String.mk tid ++ "." ++ img_ext]
              if fs.fs_exists img_path then
                some ("/images/" ++ String.mk tid ++ "." ++ img_ext)
              else none)
          | none => none
        let image_url :=
          match image_cache with
          | some u => some u
          | none =>
            image_exts.findSome? (fun img_ext =>
              let img_path := with_file_name path (String.mk (path_file_stem path) ++ "." ++ img_ext)
              if fs.fs_exists img_path then some (join_path (strip_root root_dir img_path))
              else none)
        some { name := enriched.1, path := path, relative_path := relative_path,
               size := size, format := String.mk (charsLower ext.toList), title_id := title_id,
               version := parsed.2.2.1, latest_version := enriched.2.2,
               category := parsed.2.2.2, publisher := enriched.2.1,
               image_url := image_url }
      else none

/-! Section: shop protocol encoder (src/tinfoil.rs)

The cryptographic primitives and the compressor are external crates; they
are embedded as function parameters (`zstd_encode`, `rsa_encrypt`,
`aes_encrypt_block`), as is the freshly generated key (`aes_key`), so the
definition captures exactly the framing performed by `encrypt_shop`. -/

/-- The ASCII bytes of `"TINFOIL"`. -/
def tinfoil_magic : List Nat := [84, 73, 78, 70, 79, 73, 76]

/-- Rust `u64::to_le_bytes`. -/
def u64_le_bytes (n : Nat) : List Nat := (List.range 8).map (fun i => n / 256 ^ i % 256)

/-- The zero-padding step of `encrypt_shop`:
`let pad_len = 16 - (compressed_size % 16); if pad_len < 16 { extend with zeros }`. -/
def pad16 (compressed : List Nat) : List Nat :=
  let pad_len := 16 - compressed.length % 16
  if pad_len < 16 then compressed ++ List.replicate pad_len 0 else compressed

/-- Rust `chunks_exact(16)` with an explicit fuel bound (the fuel is the list
length at the call site, so every full chunk is produced). -/
def chunksExactAux : Nat → List Nat → List (List Nat)
  | 0, _ => []
  | fuel + 1, l => if 16 ≤ l.length then l.take 16 :: chunksExactAux fuel (l.drop 16) else []

/-- Rust `slice::chunks_exact(16)`: the full 16-byte chunks, any remainder dropped. -/
def chunks_exact16 (l : List Nat) : List (List Nat) := chunksExactAux l.length l

/-- The function `encrypt_shop` (src/tinfoil.rs): compress, RSA-encrypt the fresh AES key,
zero-pad, ECB-encrypt block by block, and frame as
magic ++ flag `0xFD` ++ encrypted key ++ little-endian length ++ ciphertext. -/
def encrypt_shop (aes_key : List Nat)
    (zstd_encode rsa_encrypt aes_encrypt_block : List Nat → List Nat)
    (json_data : List Nat) : List Nat :=
  let compressed := zstd_encode json_data
  let compressed_size := compressed.length
  let encrypted_aes_key := rsa_encrypt aes_key
  let padded_data := pad16 compressed
  let encrypted_data := ((chunks_exact16 padded_data).map aes_encrypt_block).flatten
  tinfoil_magic ++ [253] ++ encrypted_aes_key ++ u64_le_bytes compressed_size ++ encrypted_data

/-! Section: reconciliation engine catalog operations (src/tasks.rs)

The shared `Vec<Game>` is the state; each constructor of `CatalogStep`
is one lock-holding span of the source: a bulk-scan batch drain, one
watch-loop create/modify upsert, one remove, or one rename. -/

inductive OutEvent where
  | removed (path : PathC)
  | updated (game : Game)
deriving DecidableEq

/-- Rust `games.iter().position(|g| g.path == p)`. -/
def list_position (l : List Game) (p : PathC) : Option Nat :=
  match l with
  | [] => none
  | g :: rest => if g.path = p then some 0 else (list_position rest p).map (fun i => i + 1)

/-- The bulk scan's batch drain: `g_lock.extend(batch.drain(..))`. -/
def scan_drain (games batch : List Game) : List Game := games ++ batch

/-- The watch loop's create/modify application:
`if let Some(idx) = position(path) { games[idx] = game } else { games.push(game) }`. -/
def watch_upsert (games : List Game) (game : Game) : List Game :=
  match list_position games game.path with
  | some idx => games.set idx game
  | none => games ++ [game]

/-- The watch loop's remove application: erase the first entry with the path. -/
def watch_remove (games : List Game) (p : PathC) : List Game :=
  match list_position games p with
  | some idx => games.eraseIdx idx
  | none => games

/-- The watch loop's rename branch: remove the `from` entry (publishing
`EntryRemoved`), then rebuild for the `to` path and `push` (publishing
`EntryUpdated`) when the rebuild succeeds.  Returns the new catalog and
the published events in order. -/
def handle_rename (fs : FS) (root_dir data_dir : PathC) (metadata : Option MetadataProvider)
    (games : List Game) (from_path to_path : PathC) : List Game × List OutEvent :=
  let removed :=
    match list_position games from_path with
    | some idx => (games.eraseIdx idx, [OutEvent.removed from_path])
    | none => (games, [])
  match process_entry fs to_path root_dir data_dir metadata with
  | some game => (removed.1 ++ [game], removed.2 ++ [OutEvent.updated game])
  | none => removed

/-- One catalog-mutating step of the reconciliation engine.  Every inserted
record is a `process_entry` product, as in the source; the filesystem
oracle and metadata snapshot may differ between steps. -/
inductive CatalogStep : List Game → List Game → Prop where
  | drain (games : List Game) (fs : FS) (root_dir data_dir : PathC)
      (metadata : Option MetadataProvider) (paths : List PathC) :
      CatalogStep games
        (scan_drain games (paths.filterMap (fun p => process_entry fs p root_dir data_dir metadata)))
  | create_modify (games : List Game) (fs : FS) (root_dir data_dir : PathC)
      (metadata : Option MetadataProvider) (p : PathC) (game : Game) :
      fs.is_file p = true →
      process_entry fs p root_dir data_dir metadata = some game →
      CatalogStep games (watch_upsert games game)
  | remove (games : List Game) (p : PathC) :
      CatalogStep games (watch_remove games p)
  | rename (games : List Game) (fs : FS) (root_dir data_dir : PathC)
      (metadata : Option MetadataProvider) (from_path to_path : PathC) :
      CatalogStep games (handle_rename fs root_dir data_dir metadata games from_path to_path).1

/-- Catalog states reachable from the empty startup catalog at quiescent
points (between lock-holding spans). -/
def CatalogReachable (games : List Game) : Prop := Relation.ReflTransGen CatalogStep [] games

/-- At most one entry per absolute path. -/
abbrev paths_unique (games : List Game) : Prop := (games.map (fun g => g.path)).Nodup

/-! Section: shop listing handler (src/handlers/tinfoil.rs) -/

/-- Upper-case hex digit of a nibble (`percent_encoding` uses upper case). -/
def percent_hex_digit (n : Nat) : Char := if n < 10 then Char.ofNat (48 + n) else Char.ofNat (55 + n)

/-- Rust `utf8_percent_encode(_, NON_ALPHANUMERIC)` for one single-byte character. -/
def encode_char (c : Char) : List Char :=
  if c.isAlphanum then [c]
  else [ '%', percent_hex_digit (c.toNat / 16), percent_hex_digit (c.toNat % 16)]

/-- The function `encode_path` (src/handlers/files.rs): percent-encode each `/`-separated segment. -/
def encode_path (path : String) : String :=
  String.intercalate "/"
    ((split_on '/' path.toList).map (fun seg => String.mk ((seg.map encode_char).flatten)))

/-- The shop JSON payload: one `{url, size}` object per game plus the
success message. -/
structure ShopIndex where
  files : List (String × Nat)
  success : String
deriving DecidableEq

inductive ShopResponse where
  | octet_stream (data : List Nat)
  | json_body (index : ShopIndex)
deriving DecidableEq

def build_shop_index (host : String) (games : List Game) : ShopIndex :=
  { files := games.map (fun g => (host ++ "/files/" ++ encode_path g.relative_path, g.size)),
    success := "The index was generated successfully." }

/-- The handler `tinfoil_index` (src/handlers/tinfoil.rs): serve the encrypted container
when encryption is enabled and succeeds, otherwise fall back to the plain
JSON body.  `encrypt` stands for `serde_json::to_vec` + `encrypt_shop`,
whose outcome is request-specific (fresh key). -/
def tinfoil_index (tinfoil_encrypt : Bool) (encrypt : ShopIndex → Except String (List Nat))
    (host : String) (games : List Game) : ShopResponse :=
  let shop_json := build_shop_index host games
  if tinfoil_encrypt then
    match encrypt shop_json with
    | Except.ok encrypted => ShopResponse.octet_stream encrypted
    | Except.error _ => ShopResponse.json_body shop_json
  else ShopResponse.json_body shop_json

/-! Section: concrete instances used by witnesses and counterexamples -/

/-- A filesystem in which exactly `games/a.nsp` is a regular file. -/
def fsA : FS :=
  { is_file := fun p => p == ["games", "a.nsp"],
    metadata_len := fun _ => some 0,
    fs_exists := fun _ => false }

/-- The entry `process_entry` builds for `games/a.nsp` under `fsA`. -/
def gameA : Game :=
  { name := [ 'a'], path := ["games", "a.nsp"], relative_path := "a.nsp",
    size := 0, format := "nsp", title_id := none, version := none,
    latest_version := none, category := base_cat, publisher := none,
    image_url := none }

/-- A filesystem in which exactly `games/b.nsp` is a regular file. -/
def fsB : FS :=
  { is_file := fun p => p == ["games", "b.nsp"],
    metadata_len := fun _ => some 0,
    fs_exists := fun _ => false }

/-- The entry `process_entry` builds for `games/b.nsp` under `fsB`. -/
def gameB : Game :=
  { name := [ 'b'], path := ["games", "b.nsp"], relative_path := "b.nsp",
    size := 0, format := "nsp", title_id := none, version := none,
    latest_version := none, category := base_cat, publisher := none,
    image_url := none }

/-- A filesystem in which exactly `games/b.txt` is a regular file. -/
def fsTxt : FS :=
  { is_file := fun p => p == ["games", "b.txt"],
    metadata_len := fun _ => some 0,
    fs_exists := fun _ => false }

/-- The spec's example version history:
`{"0100abcdef123456": {"0": "d1", "65536": "d2"}}`. -/
def providerExample : MetadataProvider :=
  { titles := [],
    versions := [("0100abcdef123456".toList,
                  [("0".toList, "d1".toList), ("65536".toList, "d2".toList)])] }

/-- A version history whose only map has no numeric keys. -/
def providerNonNumeric : MetadataProvider :=
  { titles := [],
    versions := [("0100abcdef123456".toList,
                  [("alpha".toList, "d1".toList), ("beta".toList, "d2".toList)])] }

/-! Section: helper lemmas -/

theorem not_mem_of_all {p : Char → Bool} {l : List Char} (h : l.all p = true) {c : Char}
    (hc : p c = false) : c ∉ l := by
  intro hm
  have := List.all_eq_true.mp h c hm
  rw [hc] at this
  exact Bool.false_ne_true this

theorem find_char_append_cons (t : Char) (a b : List Char) (ha : t ∉ a) :
    find_char t (a ++ t :: b) = some a.length := by
  induction a with
  | nil => simp [find_char]
  | cons c a ih =>
    have hc : ¬ (c = t) := fun hh => ha (hh ▸ List.mem_cons_self c a)
    simp [find_char, hc, ih (fun hm => ha (List.mem_cons_of_mem c hm))]

theorem split_on_no_sep (sep : Char) (l : List Char) (h : sep ∉ l) :
    split_on sep l = [l] := by
  induction l with
  | nil => rfl
  | cons c rest ih =>
    have hc : ¬ (c = sep) := fun hh => h (hh ▸ List.mem_cons_self c rest)
    simp [split_on, hc, ih (fun hm => h (List.mem_cons_of_mem c hm))]

theorem split_on_append (sep : Char) (a b : List Char) (h : sep ∉ a) :
    split_on sep (a ++ sep :: b) = a :: split_on sep b := by
  induction a with
  | nil => simp [split_on]
  | cons c a ih =>
    have hc : ¬ (c = sep) := fun hh => h (hh ▸ List.mem_cons_self c a)
    simp [split_on, hc, ih (fun hm => h (List.mem_cons_of_mem c hm))]

theorem last_dot_idx_append (a e : List Char) (he : '.' ∉ e) :
    last_dot_idx (a ++ '.' :: e) = some a.length := by
  unfold last_dot_idx
  have h1 : (a ++ '.' :: e).reverse = e.reverse ++ '.' :: a.reverse := by simp
  rw [h1, find_char_append_cons _ _ _ (by simpa using he)]
  simp [List.length_append]

theorem file_stem_append (a e : List Char) (he : '.' ∉ e) (ha : a ≠ []) :
    file_stem (a ++ '.' :: e) = a := by
  cases a with
  | nil => exact absurd rfl ha
  | cons x xs =>
    unfold file_stem
    rw [last_dot_idx_append _ _ he]
    show List.take (x :: xs).length (x :: xs ++ '.' :: e) = x :: xs
    exact List.take_left _ _

theorem intercalate_single (x : List Char) : List.intercalate [ ' '] [x] = x := by
  simp [List.intercalate]

theorem parse_step_hex (st : Option (List Char) × Option (List Char) × List Char)
    (content rest : List Char) (hnb : ']' ∉ content)
    (hlen : content.length = 16) (hhex : content.all is_ascii_hexdigit = true) :
    parse_step st (content ++ ']' :: rest) = (some (charsUpper content), st.2.1, st.2.2) := by
  unfold parse_step
  rw [find_char_append_cons _ _ _ hnb]
  simp only []
  rw [List.take_left]
  simp [hlen, hhex]

theorem parse_step_version (st : Option (List Char) × Option (List Char) × List Char)
    (n rest : List Char) (hn : n.all Char.isDigit = true) :
    parse_step st (( 'v' :: n) ++ ']' :: rest)
      = (st.1, some ( 'v' :: n), if 'v' :: n ≠ [ 'v', '0'] then update_cat else st.2.2) := by
  have hnb : ']' ∉ ( 'v' :: n) := by
    intro hm
    rcases List.mem_cons.mp hm with h | h
    · exact absurd h (by decide)
    · exact not_mem_of_all hn (by decide) h
  unfold parse_step
  rw [find_char_append_cons _ _ _ hnb]
  simp only []
  rw [List.take_left]
  have hnothex : (( 'v' :: n).all is_ascii_hexdigit) = false := by
    simp [List.all_cons]
    intro h
    exact absurd h (by decide)
  rw [if_neg (by simp [hnothex])]
  rw [if_pos ⟨rfl, by simpa using hn⟩]

theorem parse_filename_eq (filename A p0 : List Char) (rest : List (List Char))
    (hstem : file_stem filename = A) (hsplit : split_on '[' A = p0 :: rest) :
    parse_filename filename =
      (trimL p0,
       (rest.foldl parse_step (none, none, base_cat)).1,
       (rest.foldl parse_step (none, none, base_cat)).2.1,
       (rest.foldl parse_step (none, none, base_cat)).2.2) := by
  unfold parse_filename
  rw [hstem]
  simp only [hsplit]
  simp [intercalate_single]

/-- C5: for a filename `Name [ID][vN].ext` with `ID` sixteen hex characters and
`N` a digit sequence, the classifier returns the trimmed name, the uppercased
title identifier, the verbatim version tag `vN`, and category Base exactly for
`N = 0`; with two bracketed 16-hex segments the later one wins. -/
theorem c5_classifier (name id id2 n ext : List Char)
    (hid_len : id.length = 16) (hid_hex : id.all is_ascii_hexdigit = true)
    (hid2_len : id2.length = 16) (hid2_hex : id2.all is_ascii_hexdigit = true)
    (hn : n.all Char.isDigit = true) (hname : '[' ∉ name) (hext : '.' ∉ ext) :
    parse_filename (name ++ '[' :: (id ++ ']' :: '[' :: 'v' :: (n ++ ']' :: '.' :: ext)))
      = (trimL name, some (charsUpper id), some ( 'v' :: n),
         if n = [ '0'] then base_cat else update_cat) ∧
    parse_filename
        (name ++ '[' :: (id ++ ']' :: '[' :: (id2 ++ ']' :: '[' :: 'v' :: (n ++ ']' :: '.' :: ext))))
      = (trimL name, some (charsUpper id2), some ( 'v' :: n),
         if n = [ '0'] then base_cat else update_cat) := by
  have hidlb : '[' ∉ id := not_mem_of_all hid_hex (by decide)
  have hidnb : ']' ∉ id := not_mem_of_all hid_hex (by decide)
  have hid2lb : '[' ∉ id2 := not_mem_of_all hid2_hex (by decide)
  have hid2nb : ']' ∉ id2 := not_mem_of_all hid2_hex (by decide)
  have hnlb : '[' ∉ n := not_mem_of_all hn (by decide)
  have hcat : (if ( 'v' :: n) ≠ [ 'v', '0'] then update_cat else base_cat)
      = (if n = [ '0'] then base_cat else update_cat) := by
    by_cases h0 : n = [ '0'] <;> simp [h0]
  have hidbr : '[' ∉ (id ++ [']']) := by
    intro hm
    rcases List.mem_append.mp hm with h | h
    · exact hidlb h
    · simp at h
  have hid2br : '[' ∉ (id2 ++ [']']) := by
    intro hm
    rcases List.mem_append.mp hm with h | h
    · exact hid2lb h
    · simp at h
  have hvsplit : split_on '[' ( 'v' :: (n ++ [']'])) = [ 'v' :: (n ++ [']'])] := by
    apply split_on_no_sep
    intro hm
    rcases List.mem_cons.mp hm with h | h
    · exact absurd h (by decide)
    · rcases List.mem_append.mp h with h | h
      · exact hnlb h
      · simp at h
  constructor
  · have hstem : file_stem (name ++ '[' :: (id ++ ']' :: '[' :: 'v' :: (n ++ ']' :: '.' :: ext)))
        = name ++ '[' :: (id ++ ']' :: '[' :: 'v' :: (n ++ [']'])) := by
      rw [show (name ++ '[' :: (id ++ ']' :: '[' :: 'v' :: (n ++ ']' :: '.' :: ext)) : List Char)
          = (name ++ '[' :: (id ++ ']' :: '[' :: 'v' :: (n ++ [']']))) ++ '.' :: ext by simp]
      exact file_stem_append _ _ hext (by simp)
    have hsplit : split_on '[' (name ++ '[' :: (id ++ ']' :: '[' :: 'v' :: (n ++ [']'])))
        = name :: (id ++ [']']) :: [ 'v' :: (n ++ [']'])] := by
      rw [split_on_append '[' name _ hname,
          show (id ++ ']' :: '[' :: 'v' :: (n ++ [']']) : List Char)
            = (id ++ [']']) ++ '[' :: ( 'v' :: (n ++ [']'])) by simp,
          split_on_append '[' (id ++ [']']) _ hidbr, hvsplit]
    have hfold : ([id ++ [']'], 'v' :: (n ++ [']'])].foldl parse_step (none, none, base_cat))
        = (some (charsUpper id), some ( 'v' :: n),
           if ( 'v' :: n) ≠ [ 'v', '0'] then update_cat else base_cat) := by
      rw [List.foldl_cons, List.foldl_cons, List.foldl_nil,
          parse_step_hex _ id [] hidnb hid_len hid_hex,
          show ( 'v' :: (n ++ [']']) : List Char) = ( 'v' :: n) ++ ']' :: [] by simp,
          parse_step_version _ n [] hn]
    rw [parse_filename_eq _ _ _ _ hstem hsplit, hfold, hcat]
  · have hstem : file_stem
          (name ++ '[' :: (id ++ ']' :: '[' :: (id2 ++ ']' :: '[' :: 'v' :: (n ++ ']' :: '.' :: ext))))
        = name ++ '[' :: (id ++ ']' :: '[' :: (id2 ++ ']' :: '[' :: 'v' :: (n ++ [']']))) := by
      rw [show (name ++ '[' :: (id ++ ']' :: '[' :: (id2 ++ ']' :: '[' :: 'v' :: (n ++ ']' :: '.' :: ext))) : List Char)
          = (name ++ '[' :: (id ++ ']' :: '[' :: (id2 ++ ']' :: '[' :: 'v' :: (n ++ [']'])))) ++ '.' :: ext by simp]
      exact file_stem_append _ _ hext (by simp)
    have hsplit : split_on '[' (name ++ '[' :: (id ++ ']' :: '[' :: (id2 ++ ']' :: '[' :: 'v' :: (n ++ [']']))))
        = name :: (id ++ [']']) :: (id2 ++ [']']) :: [ 'v' :: (n ++ [']'])] := by
      rw [split_on_append '[' name _ hname,
          show (id ++ ']' :: '[' :: (id2 ++ ']' :: '[' :: 'v' :: (n ++ [']'])) : List Char)
            = (id ++ [']']) ++ '[' :: (id2 ++ ']' :: '[' :: 'v' :: (n ++ [']'])) by simp,
          split_on_append '[' (id ++ [']']) _ hidbr,
          show (id2 ++ ']' :: '[' :: 'v' :: (n ++ [']']) : List Char)
            = (id2 ++ [']']) ++ '[' :: ( 'v' :: (n ++ [']'])) by simp,
          split_on_append '[' (id2 ++ [']']) _ hid2br, hvsplit]
    have hfold : ([id ++ [']'], id2 ++ [']'], 'v' :: (n ++ [']'])].foldl parse_step (none, none, base_cat))
        = (some (charsUpper id2), some ( 'v' :: n),
           if ( 'v' :: n) ≠ [ 'v', '0'] then update_cat else base_cat) := by
      rw [List.foldl_cons, List.foldl_cons, List.foldl_cons, List.foldl_nil,
          parse_step_hex _ id [] hidnb hid_len hid_hex,
          parse_step_hex _ id2 [] hid2nb hid2_len hid2_hex,
          show ( 'v' :: (n ++ [']']) : List Char) = ( 'v' :: n) ++ ']' :: [] by simp,
          parse_step_version _ n [] hn]
    rw [parse_filename_eq _ _ _ _ hstem hsplit, hfold, hcat]

/-- C5 witness: concrete classifier runs, including the spec's example and a
two-identifier filename where the later identifier wins. -/
theorem c5_witness :
    parse_filename ("Super Game [0100abcdef123456][v65536].nsp".toList)
      = ("Super Game".toList, some ("0100ABCDEF123456".toList), some ("v65536".toList), update_cat) ∧
    parse_filename ("Super Game [badbadbadbad0000][0100abcdef123456][v0].nsp".toList)
      = ("Super Game".toList, some ("0100ABCDEF123456".toList), some ("v0".toList), base_cat) := by
  constructor
  · have h := (c5_classifier ("Super Game ".toList) ("0100abcdef123456".toList)
      ("0100abcdef123456".toList) ("65536".toList) ("nsp".toList)
      (by decide) (by decide) (by decide) (by decide) (by decide) (by decide) (by decide)).1
    rw [show ("Super Game [0100abcdef123456][v65536].nsp".toList)
        = ("Super Game ".toList) ++ '[' :: (("0100abcdef123456".toList)
            ++ ']' :: '[' :: 'v' :: (("65536".toList) ++ ']' :: '.' :: ("nsp".toList))) from by decide,
      h]
    decide
  · have h := (c5_classifier ("Super Game ".toList) ("badbadbadbad0000".toList)
      ("0100abcdef123456".toList) ("0".toList) ("nsp".toList)
      (by decide) (by decide) (by decide) (by decide) (by decide) (by decide) (by decide)).2
    rw [show ("Super Game [badbadbadbad0000][0100abcdef123456][v0].nsp".toList)
        = ("Super Game ".toList) ++ '[' :: (("badbadbadbad0000".toList)
            ++ ']' :: '[' :: (("0100abcdef123456".toList)
            ++ ']' :: '[' :: 'v' :: (("0".toList) ++ ']' :: '.' :: ("nsp".toList)))) from by decide,
      h]
    decide

/-- C10: a bracketed segment `[v]` (no digits after `v`) is accepted as a
version tag — the digit check is vacuous on the empty tail — so the version
becomes `"v"` and, since `"v"` differs from `"v0"`, the category becomes
Update. -/
theorem c10_empty_version_tag :
    (∀ (st : Option (List Char) × Option (List Char) × List Char) (rest : List Char),
      parse_step st ( 'v' :: ']' :: rest) = (st.1, some [ 'v'], update_cat)) ∧
    (∀ (name ext : List Char), '[' ∉ name → '.' ∉ ext →
      parse_filename (name ++ '[' :: 'v' :: ']' :: '.' :: ext)
        = (trimL name, none, some [ 'v'], update_cat)) := by
  constructor
  · intro st rest
    rfl
  · intro name ext hname hext
    have hstem : file_stem (name ++ '[' :: 'v' :: ']' :: '.' :: ext)
        = name ++ '[' :: 'v' :: [']'] := by
      rw [show (name ++ '[' :: 'v' :: ']' :: '.' :: ext : List Char)
          = (name ++ '[' :: 'v' :: [']']) ++ '.' :: ext by simp]
      exact file_stem_append _ _ hext (by simp)
    have hsplit : split_on '[' (name ++ '[' :: 'v' :: [']'])
        = name :: [[ 'v', ']']] := by
      rw [split_on_append '[' name _ hname, split_on_no_sep '[' _ (by decide)]
    rw [parse_filename_eq _ _ _ _ hstem hsplit]
    rfl

/-- C10 witness: the step applied to the start state, and a full run on
`Game [v].nsp`. -/
theorem c10_witness :
    parse_step (none, none, base_cat) ( 'v' :: ']' :: []) = (none, some [ 'v'], update_cat) ∧
    parse_filename ("Game [v].nsp".toList) = ("Game".toList, none, some [ 'v'], update_cat) := by
  constructor
  · exact c10_empty_version_tag.1 (none, none, base_cat) []
  · have h := c10_empty_version_tag.2 ("Game ".toList) ("nsp".toList) (by decide) (by decide)
    rw [show ("Game [v].nsp".toList)
        = ("Game ".toList) ++ '[' :: 'v' :: ']' :: '.' :: ("nsp".toList) from by decide, h]
    decide

/-- C7: the entry builder returns `none` for any path that is not a regular
file, for any path with no extension, and for any extension that, lowercased,
is not one of the four recognized container formats. -/
theorem c7_entry_rejections (fs : FS) (path root_dir data_dir : PathC)
    (md : Option MetadataProvider) :
    (fs.is_file path = false → process_entry fs path root_dir data_dir md = none) ∧
    (path_extension path = none → process_entry fs path root_dir data_dir md = none) ∧
    (∀ ext, path_extension path = some ext →
      String.mk (charsLower ext.toList) ∉ valid_extensions →
      process_entry fs path root_dir data_dir md = none) := by
  refine ⟨?_, ?_, ?_⟩
  · intro h
    unfold process_entry
    simp [h]
  · intro h
    unfold process_entry
    rw [h]
    by_cases hf : fs.is_file path = false
    · simp [hf]
    · simp [hf]
  · intro ext hx hmem
    unfold process_entry
    rw [hx]
    by_cases hf : fs.is_file path = false
    · simp [hf]
    · have hmem2 : String.mk (charsLower ext.data) ∉ valid_extensions := hmem
      simp [hf, hmem2]

/-- C7 witness: a non-file path, an extensionless path, and a `.txt` path are
all rejected. -/
theorem c7_witness :
    process_entry fsTxt ["games", "a.nsp"] ["games"] ["data"] none = none ∧
    process_entry fsTxt ["games", "noext"] ["games"] ["data"] none = none ∧
    process_entry fsTxt ["games", "b.txt"] ["games"] ["data"] none = none := by
  refine ⟨(c7_entry_rejections fsTxt ["games", "a.nsp"] ["games"] ["data"] none).1 (by decide),
          (c7_entry_rejections fsTxt ["games", "noext"] ["games"] ["data"] none).2.1 (by decide),
          (c7_entry_rejections fsTxt ["games", "b.txt"] ["games"] ["data"] none).2.2 "txt"
            (by decide) (by decide)⟩

/-- C9: when encryption is enabled and `encrypt_shop` fails, the shop listing
endpoint still returns the plain JSON catalog — an encryption failure is
never a hard failure of the listing request. -/
theorem c9_encrypt_failure_fallback (encrypt : ShopIndex → Except String (List Nat))
    (host : String) (games : List Game) (e : String)
    (h : encrypt (build_shop_index host games) = Except.error e) :
    tinfoil_index true encrypt host games
      = ShopResponse.json_body (build_shop_index host games) := by
  unfold tinfoil_index
  simp [h]

/-- C9 witness: a concrete failing encryptor falls back to the JSON body. -/
theorem c9_witness :
    tinfoil_index true (fun _ => Except.error "rsa failure") "http://host" [gameA]
      = ShopResponse.json_body (build_shop_index "http://host" [gameA]) :=
  c9_encrypt_failure_fallback (fun _ => Except.error "rsa failure") "http://host" [gameA]
    "rsa failure" rfl

/-- C8 (amended): a rename whose `from` path is tracked always publishes
exactly one `EntryRemoved` for the old path; when the rebuild for the `to`
path succeeds the catalog gets the new entry appended after the removal and
exactly one `EntryUpdated` follows the `EntryRemoved`, in that order; when
the rebuild fails only the `EntryRemoved` is published. -/
theorem c8_rename_events (fs : FS) (root_dir data_dir : PathC) (md : Option MetadataProvider)
    (games : List Game) (from_path to_path : PathC) (idx : Nat)
    (hpos : list_position games from_path = some idx) :
    (∀ g, process_entry fs to_path root_dir data_dir md = some g →
      handle_rename fs root_dir data_dir md games from_path to_path
        = (games.eraseIdx idx ++ [g], [OutEvent.removed from_path, OutEvent.updated g])) ∧
    (process_entry fs to_path root_dir data_dir md = none →
      handle_rename fs root_dir data_dir md games from_path to_path
        = (games.eraseIdx idx, [OutEvent.removed from_path])) := by
  constructor
  · intro g hg
    unfold handle_rename
    simp [hpos, hg]
  · intro hg
    unfold handle_rename
    simp [hpos, hg]

/-- C8 witness: renaming tracked `games/a.nsp` to `games/b.nsp` removes the
old entry, appends the rebuilt one, and publishes removed-then-updated. -/
theorem c8_witness :
    handle_rename fsB ["games"] ["data"] none [gameA] ["games", "a.nsp"] ["games", "b.nsp"]
      = ([gameB], [OutEvent.removed ["games", "a.nsp"], OutEvent.updated gameB]) := by
  have h := (c8_rename_events fsB ["games"] ["data"] none [gameA]
    ["games", "a.nsp"] ["games", "b.nsp"] 0 (by decide)).1 gameB (by decide)
  exact h

/-- C8 counterexample: renaming tracked `games/a.nsp` to `games/b.txt` (whose
rebuild fails on the extension check) publishes only the `EntryRemoved` —
no `EntryUpdated` follows, contrary to the claim. -/
theorem c8_counterexample :
    (handle_rename fsTxt ["games"] ["data"] none [gameA]
        ["games", "a.nsp"] ["games", "b.txt"]).2
      = [OutEvent.removed ["games", "a.nsp"]] ∧
    (handle_rename fsTxt ["games"] ["data"] none [gameA]
        ["games", "a.nsp"] ["games", "b.txt"]).2.length = 1 := by
  exact ⟨by decide, by decide⟩

/-- Every error produced while draining an all-delivered body stream is a
local write failure. -/
theorem drain_to_file_local_err (chunks : List ChunkEvt) (h : chunks.all chunk_has_data = true) :
    ∀ e, drain_to_file chunks = Except.error e → e = SyncError.io_err := by
  induction chunks with
  | nil =>
    intro e he
    simp [drain_to_file] at he
  | cons c rest ih =>
    intro e he
    cases c with
    | net_err => simp [chunk_has_data] at h
    | chunk wok =>
      cases wok with
      | false =>
        simp [drain_to_file] at he
        exact he.symm
      | true =>
        have hrest : rest.all chunk_has_data = true := by
          simpa [List.all_cons, chunk_has_data] using h
        exact ih hrest e (by simpa [drain_to_file] using he)

/-- Every error of a single fetch-and-write with no body-read failure is local. -/
theorem fetch_to_file_local_err (c : Bool) (f : FetchOutcome) (h : fetch_no_net_body f = true) :
    ∀ e, fetch_to_file c f = Except.error e → e = SyncError.io_err := by
  intro e he
  cases f with
  | send_err => simp [fetch_to_file] at he
  | resp ok chunks =>
    cases ok with
    | false => simp [fetch_to_file] at he
    | true =>
      cases c with
      | false =>
        simp [fetch_to_file] at he
        exact he.symm
      | true =>
        exact drain_to_file_local_err chunks (by simpa [fetch_no_net_body] using h) e
          (by simpa [fetch_to_file] using he)

/-- Every error of the title-document loop with no body-read failures is local. -/
theorem sync_titles_local_err (tl : List (Bool × FetchOutcome))
    (h : (tl.all fun a => fetch_no_net_body a.2) = true) :
    ∀ e, sync_titles tl = Except.error e → e = SyncError.io_err := by
  induction tl with
  | nil =>
    intro e he
    simp [sync_titles] at he
  | cons a rest ih =>
    obtain ⟨c, f⟩ := a
    have hf : fetch_no_net_body f = true := by
      have := List.all_eq_true.mp h (c, f) (List.mem_cons_self _ _)
      simpa using this
    have hrest : (rest.all fun a => fetch_no_net_body a.2) = true := by
      rw [List.all_cons] at h
      exact (Bool.and_eq_true_iff.mp h).2
    intro e he
    cases f with
    | send_err => exact ih hrest e (by simpa [sync_titles] using he)
    | resp ok chunks =>
      cases ok with
      | false => exact ih hrest e (by simpa [sync_titles] using he)
      | true =>
        cases c with
        | false =>
          simp [sync_titles] at he
          exact he.symm
        | true =>
          exact drain_to_file_local_err chunks (by simpa [fetch_no_net_body] using hf) e
            (by simpa [sync_titles] using he)

/-- C2 (amended): a request error or non-success status on the
`versions.json` fetch never fails `sync` and never prevents the title fetch
attempts (whose outcome alone then decides the result); request errors and
non-success statuses inside the title loop are likewise skipped; and in any
run whose success responses have no body-read network failure, every `sync`
error is a local filesystem error.  (A body-read network failure, by
contrast, does propagate — see the counterexample.) -/
theorem c2_sync_error_sources :
    (∀ (vc : Bool) (tl : List (Bool × FetchOutcome)) (chunks : List ChunkEvt),
      sync true true vc FetchOutcome.send_err tl
        = sync true true vc (FetchOutcome.resp false chunks) tl) ∧
    (∀ (vc : Bool) (tl : List (Bool × FetchOutcome)),
      sync true true vc FetchOutcome.send_err tl = Except.ok ()
        ↔ sync_titles tl = Except.ok ()) ∧
    (∀ (c : Bool) (chunks : List ChunkEvt) (rest : List (Bool × FetchOutcome)),
      sync_titles ((c, FetchOutcome.send_err) :: rest) = sync_titles rest ∧
      sync_titles ((c, FetchOutcome.resp false chunks) :: rest) = sync_titles rest) ∧
    (∀ (dir_exists create_dir_ok vc : Bool) (vf : FetchOutcome)
       (tl : List (Bool × FetchOutcome)),
      fetch_no_net_body vf = true →
      (tl.all fun a => fetch_no_net_body a.2) = true →
      ∀ e, sync dir_exists create_dir_ok vc vf tl = Except.error e →
        e = SyncError.io_err) := by
  refine ⟨?_, ?_, ?_, ?_⟩
  · intro vc tl chunks
    rfl
  · intro vc tl
    unfold sync
    simp only [fetch_to_file]
    cases htl : sync_titles tl <;> simp
  · intro c chunks rest
    exact ⟨rfl, rfl⟩
  · intro dir_exists create_dir_ok vc vf tl hvf htl e he
    unfold sync at he
    by_cases hdir : dir_exists = false ∧ create_dir_ok = false
    · rw [if_pos hdir] at he
      exact (Except.error.inj he).symm
    · rw [if_neg hdir] at he
      cases hv : fetch_to_file vc vf with
      | error e2 =>
        rw [hv] at he
        exact (Except.error.inj he) ▸ fetch_to_file_local_err vc vf hvf e2 hv
      | ok u =>
        rw [hv] at he
        cases ht : sync_titles tl with
        | error e3 =>
          rw [ht] at he
          exact (Except.error.inj he) ▸ sync_titles_local_err tl htl e3 ht
        | ok u2 =>
          rw [ht] at he
          exact absurd he (by simp)

/-- C2 witness: with an empty title list a versions request error still yields
success, and a directory-creation failure is classified as a local error. -/
theorem c2_witness :
    sync true true true FetchOutcome.send_err [] = Except.ok () ∧
    SyncError.io_err = SyncError.io_err := by
  constructor
  · exact (c2_sync_error_sources.2.1 true []).mpr rfl
  · exact c2_sync_error_sources.2.2.2 false false true FetchOutcome.send_err [] rfl rfl
      SyncError.io_err rfl

/-- C2 counterexample: a network failure while reading the body of a
successful `versions.json` response makes `sync` return an error (and the
title fetch, which would have succeeded, is never attempted) — the claim
says network failures never cause `sync` to fail. -/
theorem c2_counterexample :
    sync true true true (FetchOutcome.resp true [ChunkEvt.net_err])
      [(true, FetchOutcome.resp true [ChunkEvt.chunk true])]
      = Except.error SyncError.net_err := rfl

theorem iter_max_eq_none (l : List Nat) : iter_max l = none ↔ l = [] := by
  cases l with
  | nil => simp [iter_max]
  | cons x xs =>
    simp [iter_max]
    cases iter_max xs <;> simp

theorem iter_max_eq_some (l : List Nat) :
    ∀ n, iter_max l = some n ↔ n ∈ l ∧ ∀ m ∈ l, m ≤ n := by
  induction l with
  | nil =>
    intro n
    simp [iter_max]
  | cons x xs ih =>
    intro n
    cases hxs : iter_max xs with
    | none =>
      have hnil : xs = [] := (iter_max_eq_none xs).mp hxs
      subst hnil
      simp only [iter_max, Option.some_inj]
      constructor
      · rintro rfl
        exact ⟨List.mem_singleton.mpr rfl, fun m hm => le_of_eq (List.mem_singleton.mp hm)⟩
      · rintro ⟨h1, h2⟩
        exact (List.mem_singleton.mp h1).symm
    | some m =>
      obtain ⟨hmem, hmax⟩ := (ih m).mp hxs
      simp only [iter_max, hxs, Option.some_inj]
      constructor
      · rintro rfl
        constructor
        · rcases max_choice x m with h | h
          · rw [h]
            exact List.mem_cons_self x xs
          · rw [h]
            exact List.mem_cons_of_mem x hmem
        · intro k hk
          rcases List.mem_cons.mp hk with rfl | hk2
          · exact le_max_left _ _
          · exact le_trans (hmax k hk2) (le_max_right x m)
      · rintro ⟨hmem2, hub⟩
        apply le_antisymm
        · apply max_le
          · exact hub x (List.mem_cons_self x xs)
          · exact hub m (List.mem_cons_of_mem x hmem)
        · rcases List.mem_cons.mp hmem2 with rfl | hmem3
          · exact le_max_left _ _
          · exact le_trans (hmax n hmem3) (le_max_right x m)

/-- C6: `get_latest_version` looks the identifier up lowercased; given the
looked-up version map, it returns `none` when no key parses as a `u64` (and
when the identifier is absent), and returns exactly the restringification of
the numerically largest parsing key otherwise. -/
theorem c6_latest_version (p : MetadataProvider) (title_id : List Char) :
    (List.lookup (charsLower title_id) p.versions = none →
      get_latest_version p title_id = none) ∧
    (∀ vs, List.lookup (charsLower title_id) p.versions = some vs →
      ((∀ k ∈ vs.map Prod.fst, parse_u64 k = none) → get_latest_version p title_id = none) ∧
      (∀ s, get_latest_version p title_id = some s ↔
        ∃ n, s = natToChars n ∧ (∃ k ∈ vs.map Prod.fst, parse_u64 k = some n) ∧
          ∀ k m, k ∈ vs.map Prod.fst → parse_u64 k = some m → m ≤ n)) := by
  constructor
  · intro h
    unfold get_latest_version
    rw [h]
  · intro vs hvs
    constructor
    · intro hnone
      unfold get_latest_version
      simp only [hvs]
      have hempty : (vs.map Prod.fst).filterMap parse_u64 = [] := by
        rw [List.filterMap_eq_nil_iff]
        exact hnone
      rw [hempty]
      rfl
    · intro s
      unfold get_latest_version
      simp only [hvs]
      constructor
      · intro h
        cases hL : iter_max ((vs.map Prod.fst).filterMap parse_u64) with
        | none =>
          rw [hL] at h
          simp at h
        | some n =>
          rw [hL] at h
          simp only [Option.map_some', Option.some_inj] at h
          obtain ⟨hmem, hmax⟩ := (iter_max_eq_some _ n).mp hL
          refine ⟨n, h.symm, List.mem_filterMap.mp hmem, ?_⟩
          intro k m hk hm
          exact hmax m (List.mem_filterMap.mpr ⟨k, hk, hm⟩)
      · rintro ⟨n, rfl, ⟨k, hk, hpk⟩, hub⟩
        have hmem : n ∈ (vs.map Prod.fst).filterMap parse_u64 :=
          List.mem_filterMap.mpr ⟨k, hk, hpk⟩
        have hmax : ∀ m ∈ (vs.map Prod.fst).filterMap parse_u64, m ≤ n := by
          intro m hm
          obtain ⟨k2, hk2, hpk2⟩ := List.mem_filterMap.mp hm
          exact hub k2 m hk2 hpk2
        rw [(iter_max_eq_some _ n).mpr ⟨hmem, hmax⟩]
        rfl

/-- C6 witness: the spec's example map yields `"65536"` for the uppercased
identifier, and an all-non-numeric map yields `none`. -/
theorem c6_witness :
    get_latest_version providerExample ("0100ABCDEF123456".toList) = some ("65536".toList) ∧
    get_latest_version providerNonNumeric ("0100ABCDEF123456".toList) = none := by
  constructor
  · have h := ((c6_latest_version providerExample ("0100ABCDEF123456".toList)).2
      [("0".toList, "d1".toList), ("65536".toList, "d2".toList)] (by decide)).2 ("65536".toList)
    refine h.mpr ⟨65536, by decide, ⟨"65536".toList, by decide, by decide⟩, ?_⟩
    intro k m hk hm
    have hcases : k = "0".toList ∨ k = "65536".toList := by simpa using hk
    rcases hcases with rfl | rfl
    · rw [show parse_u64 ("0".toList) = some 0 from by decide] at hm
      injection hm with hh
      omega
    · rw [show parse_u64 ("65536".toList) = some 65536 from by decide] at hm
      injection hm with hh
      omega
  · exact (((c6_latest_version providerNonNumeric ("0100ABCDEF123456".toList)).2
      [("alpha".toList, "d1".toList), ("beta".toList, "d2".toList)] (by decide)).1 (by decide))

theorem u64_le_bytes_length (n : Nat) : (u64_le_bytes n).length = 8 := by
  simp [u64_le_bytes]

theorem pad16_length_mod (l : List Nat) : (pad16 l).length % 16 = 0 := by
  unfold pad16
  by_cases h : l.length % 16 = 0
  · have h16 : ¬ (16 - l.length % 16 < 16) := by omega
    simp only [h16, if_false]
    exact h
  · have hlt : l.length % 16 < 16 := Nat.mod_lt _ (by norm_num)
    have h16 : 16 - l.length % 16 < 16 := by omega
    simp only [h16, if_true, List.length_append, List.length_replicate]
    omega

theorem pad16_length_le (l : List Nat) : l.length ≤ (pad16 l).length := by
  unfold pad16
  by_cases h : 16 - l.length % 16 < 16 <;> simp [h]

theorem chunksExactAux_flatten_length (aes : List Nat → List Nat)
    (haes : ∀ b : List Nat, b.length = 16 → (aes b).length = 16) :
    ∀ (fuel : Nat) (l : List Nat), l.length ≤ fuel → l.length % 16 = 0 →
      (((chunksExactAux fuel l).map aes).flatten).length = l.length := by
  intro fuel
  induction fuel with
  | zero =>
    intro l hle hmod
    have h0 : l.length = 0 := Nat.le_zero.mp hle
    simp [chunksExactAux, h0]
  | succ fuel ih =>
    intro l hle hmod
    by_cases h16 : 16 ≤ l.length
    · simp only [chunksExactAux, h16, if_true, List.map_cons, List.flatten_cons,
        List.length_append]
      have htake : (l.take 16).length = 16 := by
        simp [List.length_take]
        omega
      rw [haes _ htake]
      have hrest := ih (l.drop 16) (by simp [List.length_drop]; omega)
        (by simp [List.length_drop]; omega)
      rw [hrest]
      simp [List.length_drop]
      omega
    · simp only [chunksExactAux, h16, if_false, List.map_nil, List.flatten_nil,
        List.length_nil]
      omega

theorem chunks_flatten_length (aes : List Nat → List Nat)
    (haes : ∀ b : List Nat, b.length = 16 → (aes b).length = 16)
    (l : List Nat) (hmod : l.length % 16 = 0) :
    (((chunks_exact16 l).map aes).flatten).length = l.length :=
  chunksExactAux_flatten_length aes haes l.length l (le_refl _) hmod

theorem take_len_append {α : Type} (a b : List α) (k : Nat) (h : a.length = k) :
    (a ++ b).take k = a := by
  subst h
  exact List.take_left a b

theorem drop_len_append {α : Type} (a b : List α) (k : Nat) (h : a.length = k) :
    (a ++ b).drop k = b := by
  subst h
  exact List.drop_left a b

/-- C3: whenever `encrypt_shop` succeeds (the RSA encryption of the fresh key
yields its 256-byte block and AES maps 16-byte blocks to 16-byte blocks), the
output is exactly: bytes 0-6 the ASCII magic `TINFOIL`, byte 7 the fixed flag
`0xFD`, bytes 8-263 the RSA-encrypted key, bytes 264-271 the little-endian
64-bit length of the zstd-compressed input, and from byte 272 on the ECB
encryption of the zero-padded compressed payload, whose length is a multiple
of 16 and at least the stored compressed length. -/
theorem c3_layout (aes_key : List Nat)
    (zstd_encode rsa_encrypt aes_encrypt_block : List Nat → List Nat)
    (json_data : List Nat)
    (h256 : (rsa_encrypt aes_key).length = 256)
    (haes : ∀ b : List Nat, b.length = 16 → (aes_encrypt_block b).length = 16) :
    (encrypt_shop aes_key zstd_encode rsa_encrypt aes_encrypt_block json_data).take 7
        = tinfoil_magic ∧
    ((encrypt_shop aes_key zstd_encode rsa_encrypt aes_encrypt_block json_data).drop 7).take 1
        = [253] ∧
    ((encrypt_shop aes_key zstd_encode rsa_encrypt aes_encrypt_block json_data).drop 8).take 256
        = rsa_encrypt aes_key ∧
    ((encrypt_shop aes_key zstd_encode rsa_encrypt aes_encrypt_block json_data).drop 264).take 8
        = u64_le_bytes (zstd_encode json_data).length ∧
    (encrypt_shop aes_key zstd_encode rsa_encrypt aes_encrypt_block json_data).drop 272
        = ((chunks_exact16 (pad16 (zstd_encode json_data))).map aes_encrypt_block).flatten ∧
    ((encrypt_shop aes_key zstd_encode rsa_encrypt aes_encrypt_block json_data).drop 272).length % 16
        = 0 ∧
    (zstd_encode json_data).length
      ≤ ((encrypt_shop aes_key zstd_encode rsa_encrypt aes_encrypt_block json_data).drop 272).length := by
  have hout : encrypt_shop aes_key zstd_encode rsa_encrypt aes_encrypt_block json_data
      = tinfoil_magic ++ [253] ++ rsa_encrypt aes_key
        ++ u64_le_bytes (zstd_encode json_data).length
        ++ ((chunks_exact16 (pad16 (zstd_encode json_data))).map aes_encrypt_block).flatten := rfl
  have hassoc : encrypt_shop aes_key zstd_encode rsa_encrypt aes_encrypt_block json_data
      = tinfoil_magic ++ ([253] ++ (rsa_encrypt aes_key
        ++ (u64_le_bytes (zstd_encode json_data).length
        ++ ((chunks_exact16 (pad16 (zstd_encode json_data))).map aes_encrypt_block).flatten))) := by
    rw [hout]
    simp [List.append_assoc]
  have d7 : (encrypt_shop aes_key zstd_encode rsa_encrypt aes_encrypt_block json_data).drop 7
      = [253] ++ (rsa_encrypt aes_key
        ++ (u64_le_bytes (zstd_encode json_data).length
        ++ ((chunks_exact16 (pad16 (zstd_encode json_data))).map aes_encrypt_block).flatten)) := by
    rw [hassoc]
    exact drop_len_append _ _ 7 rfl
  have d8 : (encrypt_shop aes_key zstd_encode rsa_encrypt aes_encrypt_block json_data).drop 8
      = rsa_encrypt aes_key
        ++ (u64_le_bytes (zstd_encode json_data).length
        ++ ((chunks_exact16 (pad16 (zstd_encode json_data))).map aes_encrypt_block).flatten) := by
    rw [show (8 : Nat) = 7 + 1 from rfl, ← List.drop_drop, d7]
    exact drop_len_append _ _ 1 rfl
  have d264 : (encrypt_shop aes_key zstd_encode rsa_encrypt aes_encrypt_block json_data).drop 264
      = u64_le_bytes (zstd_encode json_data).length
        ++ ((chunks_exact16 (pad16 (zstd_encode json_data))).map aes_encrypt_block).flatten := by
    rw [show (264 : Nat) = 8 + 256 from rfl, ← List.drop_drop, d8]
    exact drop_len_append _ _ 256 h256
  have d272 : (encrypt_shop aes_key zstd_encode rsa_encrypt aes_encrypt_block json_data).drop 272
      = ((chunks_exact16 (pad16 (zstd_encode json_data))).map aes_encrypt_block).flatten := by
    rw [show (272 : Nat) = 264 + 8 from rfl, ← List.drop_drop, d264]
    exact drop_len_append _ _ 8 (u64_le_bytes_length _)
  refine ⟨?_, ?_, ?_, ?_, d272, ?_, ?_⟩
  · rw [hassoc]
    exact take_len_append _ _ 7 rfl
  · rw [d7]
    exact take_len_append _ _ 1 rfl
  · rw [d8]
    exact take_len_append _ _ 256 h256
  · rw [d264]
    exact take_len_append _ _ 8 (u64_le_bytes_length _)
  · rw [d272, chunks_flatten_length aes_encrypt_block haes _ (pad16_length_mod _)]
    exact pad16_length_mod _
  · rw [d272, chunks_flatten_length aes_encrypt_block haes _ (pad16_length_mod _)]
    exact pad16_length_le _

/-- C3 witness: a concrete run with identity stand-ins for the crypto
primitives, checking the five frame fields. -/
theorem c3_witness :
    ((fun _ => List.replicate 256 9 : List Nat → List Nat) (List.replicate 16 0)).length = 256 ∧
    (encrypt_shop (List.replicate 16 0) (fun l => l) (fun _ => List.replicate 256 9)
        (fun b => b) [1, 2, 3]).take 7 = tinfoil_magic ∧
    ((encrypt_shop (List.replicate 16 0) (fun l => l) (fun _ => List.replicate 256 9)
        (fun b => b) [1, 2, 3]).drop 264).take 8 = u64_le_bytes 3 ∧
    ((encrypt_shop (List.replicate 16 0) (fun l => l) (fun _ => List.replicate 256 9)
        (fun b => b) [1, 2, 3]).drop 272).length % 16 = 0 := by
  have h := c3_layout (List.replicate 16 0) (fun l => l) (fun _ => List.replicate 256 9)
    (fun b => b) [1, 2, 3] (by simp) (fun b hb => hb)
  exact ⟨by simp, h.1, h.2.2.2.1, h.2.2.2.2.2.1⟩

/-- C4: the padding step of `encrypt_shop` adds no bytes when the compressed
length is already a multiple of 16, and otherwise appends exactly
`16 - n % 16` zero bytes, reaching the next multiple of 16 above `n`. -/
theorem c4_padding (l : List Nat) :
    (l.length % 16 = 0 → pad16 l = l) ∧
    (l.length % 16 ≠ 0 →
      pad16 l = l ++ List.replicate (16 - l.length % 16) 0 ∧
      (pad16 l).length = 16 * (l.length / 16 + 1)) := by
  constructor
  · intro h
    unfold pad16
    have h16 : ¬ (16 - l.length % 16 < 16) := by omega
    simp [h16]
  · intro h
    have hlt : l.length % 16 < 16 := Nat.mod_lt _ (by norm_num)
    have h16 : 16 - l.length % 16 < 16 := by omega
    constructor
    · unfold pad16
      simp [h16]
    · unfold pad16
      simp only [h16, if_true, List.length_append, List.length_replicate]
      omega

/-- C4 witness: a 16-byte list is unchanged and a 3-byte list is padded with
13 zeros to length 16. -/
theorem c4_witness :
    pad16 (List.replicate 16 5) = List.replicate 16 5 ∧
    pad16 [1, 2, 3] = [1, 2, 3] ++ List.replicate 13 0 ∧
    (pad16 [1, 2, 3]).length = 16 := by
  refine ⟨(c4_padding (List.replicate 16 5)).1 (by simp),
          ((c4_padding [1, 2, 3]).2 (by decide)).1,
          by have := ((c4_padding [1, 2, 3]).2 (by decide)).2; simpa using this⟩

theorem list_position_none_iff (l : List Game) (p : PathC) :
    list_position l p = none ↔ p ∉ l.map (fun g => g.path) := by
  induction l with
  | nil => simp [list_position]
  | cons g rest ih =>
    by_cases h : g.path = p
    · simp [list_position, h]
    · simp [list_position, h, Option.map_eq_none', ih, Ne.symm h]

theorem list_position_getElem (l : List Game) (p : PathC) :
    ∀ i, list_position l p = some i → (l.map (fun g => g.path))[i]? = some p := by
  induction l with
  | nil =>
    intro i h
    simp [list_position] at h
  | cons g rest ih =>
    intro i h
    by_cases hg : g.path = p
    · simp [list_position, hg] at h
      subst h
      simp [hg]
    · simp only [list_position, hg, if_false] at h
      rw [Option.map_eq_some'] at h
      obtain ⟨j, hj, rfl⟩ := h
      simp [ih j hj]

theorem set_getElem_self {α : Type} (l : List α) :
    ∀ (i : Nat) (a : α), l[i]? = some a → l.set i a = l := by
  induction l with
  | nil =>
    intro i a h
    simp at h
  | cons x xs ih =>
    intro i a h
    cases i with
    | zero =>
      simp at h
      simp [h]
    | succ j =>
      simp at h
      simp [ih j a h]

/-- The watch loop's create/modify application preserves path uniqueness:
a present path is replaced in place, an absent one is appended. -/
theorem watch_upsert_unique (games : List Game) (game : Game)
    (h : paths_unique games) : paths_unique (watch_upsert games game) := by
  unfold watch_upsert
  cases hpos : list_position games game.path with
  | some idx =>
    have hget := list_position_getElem games game.path idx hpos
    show ((games.set idx game).map (fun g => g.path)).Nodup
    rw [List.map_set, set_getElem_self _ idx game.path hget]
    exact h
  | none =>
    have hnot : game.path ∉ games.map (fun g => g.path) :=
      (list_position_none_iff games game.path).mp hpos
    show (((games ++ [game]).map (fun g => g.path))).Nodup
    simp only [List.map_append, List.map_cons, List.map_nil]
    rw [List.nodup_append]
    exact ⟨h, List.nodup_singleton _, (List.disjoint_singleton).mpr hnot⟩

/-- The watch loop's remove application preserves path uniqueness. -/
theorem watch_remove_unique (games : List Game) (p : PathC)
    (h : paths_unique games) : paths_unique (watch_remove games p) := by
  unfold watch_remove
  cases hpos : list_position games p with
  | some idx =>
    exact List.Nodup.sublist (List.Sublist.map _ (List.eraseIdx_sublist games idx)) h
  | none => exact h

/-- The bulk scan's drain preserves path uniqueness only under freshness of
the drained batch. -/
theorem scan_drain_unique (games batch : List Game)
    (h1 : paths_unique games) (h2 : paths_unique batch)
    (h3 : ∀ g ∈ batch, g.path ∉ games.map (fun g2 => g2.path)) :
    paths_unique (scan_drain games batch) := by
  unfold scan_drain
  show (((games ++ batch).map (fun g => g.path))).Nodup
  rw [List.map_append, List.nodup_append]
  refine ⟨h1, h2, ?_⟩
  intro a ha hb
  obtain ⟨g, hg, rfl⟩ := List.mem_map.mp hb
  exact h3 g hg ha

theorem handle_rename_fst (fs : FS) (root_dir data_dir : PathC) (md : Option MetadataProvider)
    (games : List Game) (from_path to_path : PathC) :
    (handle_rename fs root_dir data_dir md games from_path to_path).1
      = watch_remove games from_path
        ++ (match process_entry fs to_path root_dir data_dir md with
            | some g => [g]
            | none => []) := by
  unfold handle_rename watch_remove
  cases hpos : list_position games from_path <;>
    cases hpe : process_entry fs to_path root_dir data_dir md <;> simp

/-- The rename application preserves path uniqueness only when the rebuilt
entry's path is absent from the post-removal catalog. -/
theorem handle_rename_unique (fs : FS) (root_dir data_dir : PathC)
    (md : Option MetadataProvider) (games : List Game) (from_path to_path : PathC)
    (h : paths_unique games)
    (hfresh : ∀ g, process_entry fs to_path root_dir data_dir md = some g →
      g.path ∉ (watch_remove games from_path).map (fun g2 => g2.path)) :
    paths_unique (handle_rename fs root_dir data_dir md games from_path to_path).1 := by
  have hrm : paths_unique (watch_remove games from_path) := watch_remove_unique games from_path h
  rw [handle_rename_fst]
  cases hpe : process_entry fs to_path root_dir data_dir md with
  | none =>
    simpa using hrm
  | some g =>
    show (((watch_remove games from_path ++ [g]).map (fun g2 => g2.path))).Nodup
    simp only [List.map_append, List.map_cons, List.map_nil]
    rw [List.nodup_append]
    exact ⟨hrm, List.nodup_singleton _, (List.disjoint_singleton).mpr (hfresh g hpe)⟩

/-- C1 (amended): the watch loop's create/modify upsert and its removals
preserve path uniqueness unconditionally, but the bulk scan's batch drain
(a plain `extend`) preserves it only when the drained batch's paths are
pairwise distinct and absent from the catalog, and the rename insertion
(a plain `push`) only when the rebuilt entry's path is absent after the
removal; without those freshness conditions duplicate paths are reachable
(see the counterexample). -/
theorem c1_uniqueness_amended :
    (∀ (games : List Game) (game : Game),
      paths_unique games → paths_unique (watch_upsert games game)) ∧
    (∀ (games : List Game) (p : PathC),
      paths_unique games → paths_unique (watch_remove games p)) ∧
    (∀ (games batch : List Game),
      paths_unique games → paths_unique batch →
      (∀ g ∈ batch, g.path ∉ games.map (fun g2 => g2.path)) →
      paths_unique (scan_drain games batch)) ∧
    (∀ (fs : FS) (root_dir data_dir : PathC) (md : Option MetadataProvider)
       (games : List Game) (from_path to_path : PathC),
      paths_unique games →
      (∀ g, process_entry fs to_path root_dir data_dir md = some g →
        g.path ∉ (watch_remove games from_path).map (fun g2 => g2.path)) →
      paths_unique (handle_rename fs root_dir data_dir md games from_path to_path).1) :=
  ⟨watch_upsert_unique, watch_remove_unique, scan_drain_unique, handle_rename_unique⟩

/-- C1 counterexample: a catalog with two entries for the same absolute path
is reachable — a watch-loop insert of `games/a.nsp` followed by a bulk-scan
batch drain that also contains `games/a.nsp` leaves the path twice, because
the drain appends without checking for an existing entry. -/
theorem c1_counterexample :
    CatalogReachable [gameA, gameA] ∧ ¬ paths_unique [gameA, gameA] := by
  constructor
  · have h1 : CatalogStep [] [gameA] := by
      have h := CatalogStep.create_modify [] fsA ["games"] ["data"] none
        ["games", "a.nsp"] gameA (by decide) (by decide)
      have heq : watch_upsert [] gameA = [gameA] := by decide
      rw [heq] at h
      exact h
    have h2 : CatalogStep [gameA] [gameA, gameA] := by
      have h := CatalogStep.drain [gameA] fsA ["games"] ["data"] none [["games", "a.nsp"]]
      have heq : scan_drain [gameA] ([["games", "a.nsp"]].filterMap
          (fun p => process_entry fsA p ["games"] ["data"] none)) = [gameA, gameA] := by decide
      rw [heq] at h
      exact h
    exact Relation.ReflTransGen.head h1 (Relation.ReflTransGen.head h2 Relation.ReflTransGen.refl)
  · decide

/-- C1 witness: the amended preservation facts applied to concrete catalogs. -/
theorem c1_witness :
    paths_unique (watch_upsert [gameA] gameB) ∧
    paths_unique (watch_remove [gameA] ["games", "a.nsp"]) ∧
    paths_unique (scan_drain [gameA] [gameB]) ∧
    paths_unique (handle_rename fsB ["games"] ["data"] none [gameA]
      ["games", "a.nsp"] ["games", "b.nsp"]).1 := by
  refine ⟨c1_uniqueness_amended.1 [gameA] gameB (by decide),
          c1_uniqueness_amended.2.1 [gameA] ["games", "a.nsp"] (by decide),
          c1_uniqueness_amended.2.2.1 [gameA] [gameB] (by decide) (by decide) (by decide),
          c1_uniqueness_amended.2.2.2 fsB ["games"] ["data"] none [gameA]
            ["games", "a.nsp"] ["games", "b.nsp"] (by decide) ?_⟩
  intro g hg
  rw [show process_entry fsB ["games", "b.nsp"] ["games"] ["data"] none = some gameB
    from by decide] at hg
  rw [← Option.some_inj.mp hg]
  decide
